import Mathlib

/-!
Verification of the `useRefFields` field-reference manager
(`src/utils/hooks/useRefFields.ts`).

The hook keeps a mapping (`fieldsRef.current`) from field-name strings to an
optional live field handle (an `HTMLFieldElement` or `null`), initialized with
every declared name mapped to `null`, and exposes four operations:

* `setRef key` returns a callback storing the given handle (or `null` on
  unmount) at `key`, guarded by `fields.includes(key)`;
* `getRef key` asserts the handle at `key` is defined and returns its current
  `value`;
* `getAllRef` folds over `fields`, spreading `{ ...obj, [key]: fieldsRef.current[key]?.value }` starting from the `initialState` object;
* `getFormData` runs `fields.every(key => assertIsDefined(...))` and then
  appends `(key, fieldsRef.current[key]!.value)` pairs into a fresh `FormData`.

Embedding choices, justified against the source:

* A JavaScript object is modeled as an insertion-ordered association list
  `Obj β := List (String × β)`. Property assignment `obj[k] = v` overwrites in
  place when `k` is already a key and appends otherwise (`objUpsert`); the
  spread-and-override expression in `getAllRef` has the same key semantics.
* A live field handle is identified by an opaque id (`Handle := Nat`); the
  current text of each DOM element at the moment of a read is an environment
  `Env : Handle -> String` passed to the read operations.  This captures that
  `.value` is read through the stored reference at call time, not copied at
  registration time.
* The stored slot is `Option Handle`: `none` models the JavaScript `null`
  written at initialization or by a `null` ref callback.  A missing key reads
  as `undefined`; `assertIsDefined` rejects `undefined` and `null` alike, and
  both `undefined.value` and `null.value` raise `TypeError`, so the read path
  flattens "missing key" and "stored null" into `none` (`currentHandle`).
* Thrown exceptions are modeled with `Except JsError`; `JsError.error`
  carries the message of a `new Error(msg)` (the `UnregisteredFieldError` of
  the specification) and `JsError.typeError` a runtime `TypeError`.
* `FormData` in `getFormData` is the ordered list of appended
  `(name, value)` pairs.
* `Array.prototype.every` is translated literally (`jsEvery`): it stops as
  soon as the callback produces a falsy value.  `assertIsDefined` returns
  `undefined`, which is falsy, so the check in `getFormData` short-circuits
  after the first field; this faithfulness matters for claim C1.
-/

/-- Identity of a live field element (the object reference stored in the
registry); its mutable `value` property is read through `Env`. -/
abbrev Handle := Nat

/-- The current text value of every field element, at the instant a read
operation executes. -/
abbrev Env := Handle → String

/-- A JavaScript object with string keys, as an insertion-ordered association
list. -/
abbrev Obj (β : Type) := List (String × β)

/-- Keys of an object, in insertion order. -/
def objKeys {β : Type} (obj : Obj β) : List String := obj.map Prod.fst

/-- Property read `obj[key]`: `none` when the key is absent (JavaScript
`undefined`). -/
def objLookup {β : Type} (key : String) : Obj β → Option β
  | [] => none
  | (k, v) :: rest => if k = key then some v else objLookup key rest

/-- Property assignment `obj[key] = v`: overwrites in place when the key
exists, appends otherwise. -/
def objUpsert {β : Type} (key : String) (v : β) : Obj β → Obj β
  | [] => [(key, v)]
  | (k, w) :: rest =>
      if k = key then (k, v) :: rest else (k, w) :: objUpsert key v rest

/-- Errors thrown by the embedded JavaScript: `new Error(msg)` (the
specification calls the one thrown by `assertIsDefined`
`UnregisteredFieldError`) or a runtime `TypeError`. -/
inductive JsError where
  | error (msg : String)
  | typeError (msg : String)
deriving DecidableEq, Repr

/-- Message of the error `assertIsDefined` throws for `key`:
`La référence [key] n\x27est pas affectée !`. -/
def unregisteredMsg (key : String) : String :=
  "La référence " ++ key ++ " n\x27est pas affectée !"

/-- Translation of `assertIsDefined(value, key)`: throws
`new Error(...)` when the value is `undefined` or `null`, returns `undefined`
otherwise. -/
def assertIsDefined (value : Option Handle) (key : String) :
    Except JsError Unit :=
  match value with
  | none => .error (.error (unregisteredMsg key))
  | some _ => .ok ()

/-- Registry state: the `fields` array given to `useRefFields` and the
`fieldsRef.current` object. -/
structure State where
  fields : List String
  handles : Obj (Option Handle)
deriving DecidableEq, Repr

/-- Translation of `initialState`: `fields.reduce((obj, name) =>
({ ...obj, [name]: null }), { })`. -/
def initialState (fields : List String) : Obj (Option Handle) :=
  fields.foldl (fun obj name => objUpsert name none obj) []

/-- Registry state right after `useRefFields(fields)` runs:
`fieldsRef.current = initialState`. -/
def mkState (fields : List String) : State :=
  { fields := fields, handles := initialState fields }

/-- Reading `fieldsRef.current[key]`, flattening a missing key (`undefined`)
and a stored `null` into `none`; see the module comment for why this is
faithful on every read path. -/
def currentHandle (s : State) (key : String) : Option Handle :=
  (objLookup key s.handles).join

/-- Translation of the callback returned by `setRef(key)`, applied to `ref`
(the element on mount, `null` on unmount):
`if (fields.includes(key)) fieldsRef.current[key] = ref`. -/
def setRef (s : State) (key : String) (ref : Option Handle) : State :=
  if key ∈ s.fields then { s with handles := objUpsert key ref s.handles }
  else s

/-- Translation of `getRef(key)`: `assertIsDefined(fieldsRef.current[key],
key); return fieldsRef.current[key]!.value`.  The second read happens after
the assertion; were it `null` anyway, the `.value` access would raise a
`TypeError` (the `!` is erased at runtime). -/
def getRef (s : State) (env : Env) (key : String) : Except JsError String := do
  assertIsDefined (currentHandle s key) key
  match currentHandle s key with
  | some h => pure (env h)
  | none => .error (.typeError "Cannot read properties of null (reading value)")

/-- Translation of `getAllRef()`: `fields.reduce((obj, key) =>
({ ...obj, [key]: fieldsRef.current[key]?.value }), initialState)`.
The seed is the `initialState` object (all slots `null`); every name in
`fields` is overwritten by the fold, so the `null` seed values — modeled as
`none`, like the `undefined` produced by `?.` on an absent handle — survive
only at keys the fold overwrites anyway.  Values in the result: `some`
the element text for a registered field, `none` (`undefined`) otherwise. -/
def getAllRef (s : State) (env : Env) : Obj (Option String) :=
  s.fields.foldl
    (fun obj key => objUpsert key ((currentHandle s key).map env) obj)
    ((initialState s.fields).map (fun p => (p.1, (none : Option String))))

/-- Translation of `Array.prototype.every(f)`: calls `f` on each element in
order and stops with `false` as soon as `f` returns a falsy value; exceptions
from `f` propagate. -/
def jsEvery {α : Type} (f : α → Except JsError Bool) :
    List α → Except JsError Bool
  | [] => pure true
  | x :: xs => do
      let b ← f x
      if b then jsEvery f xs else pure false

/-- Translation of `getFormData()`:
`fields.every(key => assertIsDefined(fieldsRef.current[key], key))` followed
by `fields.reduce((form, key) => (form.append(key,
fieldsRef.current[key]!.value), form), new FormData())`.  The `every`
callback returns the `undefined` produced by `assertIsDefined`, a falsy
value — modeled as `pure false` — so `jsEvery` stops after the first field
whose assertion does not throw.  In the reduce, reading `.value` on a `null`
slot raises a `TypeError`. -/
def getFormData (s : State) (env : Env) :
    Except JsError (List (String × String)) := do
  let _ ← jsEvery
    (fun key => do
      assertIsDefined (currentHandle s key) key
      pure false)
    s.fields
  s.fields.foldlM
    (fun form key =>
      match currentHandle s key with
      | some h => pure (form ++ [(key, env h)])
      | none =>
          .error (.typeError "Cannot read properties of null (reading value)"))
    []

/-- Result of one registry operation. -/
inductive Output where
  | unit
  | str (s : String)
  | values (vs : Obj (Option String))
  | form (fd : List (String × String))
deriving DecidableEq, Repr

/-- The operations a caller can perform on the registry. -/
inductive Op where
  | register (key : String) (ref : Option Handle)
  | read (key : String)
  | readAll
  | formData
deriving DecidableEq, Repr

/-- Small-step semantics of the registry: each operation yields the state it
leaves behind and its result or thrown error. -/
def run (op : Op) (env : Env) (s : State) :
    State × Except JsError Output :=
  match op with
  | .register key ref => (setRef s key ref, .ok .unit)
  | .read key => (s, (getRef s env key).map .str)
  | .readAll => (s, .ok (.values (getAllRef s env)))
  | .formData => (s, (getFormData s env).map .form)

/-- States reachable from a construction with distinct field names (the
specification fixes `fieldNames` as an ordered sequence of distinct tokens;
duplicates are a caller contract violation) through any sequence of
operations. -/
inductive Reachable : State → Prop where
  | init (L : List String) (hnd : L.Nodup) : Reachable (mkState L)
  | step (s : State) (op : Op) (env : Env) (h : Reachable s) :
      Reachable (run op env s).fst

/-! ## Association-list lemmas -/

@[simp]
theorem objKeys_nil {β : Type} : objKeys ([] : Obj β) = [] := rfl

@[simp]
theorem objKeys_cons {β : Type} (p : String × β) (rest : Obj β) :
    objKeys (p :: rest) = p.1 :: objKeys rest := rfl

theorem objLookup_upsert_self {β : Type} (key : String) (v : β) :
    ∀ obj : Obj β, objLookup key (objUpsert key v obj) = some v := by
  intro obj
  induction obj with
  | nil => simp [objUpsert, objLookup]
  | cons p rest ih =>
      obtain ⟨k, w⟩ := p
      by_cases hk : k = key
      · simp [objUpsert, objLookup, hk]
      · simp [objUpsert, objLookup, hk, ih]

theorem objLookup_upsert_ne {β : Type} {k key : String} (h : k ≠ key)
    (v : β) : ∀ obj : Obj β,
    objLookup key (objUpsert k v obj) = objLookup key obj := by
  intro obj
  induction obj with
  | nil => simp [objUpsert, objLookup, h]
  | cons p rest ih =>
      obtain ⟨k0, w⟩ := p
      by_cases hk : k0 = k
      · subst hk
        simp [objUpsert, objLookup, h]
      · simp [objUpsert, objLookup, hk, ih]

theorem objKeys_upsert_mem {β : Type} {key : String} (v : β) :
    ∀ obj : Obj β, key ∈ objKeys obj →
    objKeys (objUpsert key v obj) = objKeys obj := by
  intro obj
  induction obj with
  | nil => intro h; simp at h
  | cons p rest ih =>
      obtain ⟨k, w⟩ := p
      intro h
      by_cases hk : k = key
      · simp [objUpsert, hk]
      · have hmem : key ∈ objKeys rest := by
          rcases (by simpa using h : key = k ∨ key ∈ objKeys rest) with h1 | h1
          · exact absurd h1.symm hk
          · exact h1
        simp [objUpsert, hk, ih hmem]

theorem objKeys_upsert_not_mem {β : Type} {key : String} (v : β) :
    ∀ obj : Obj β, key ∉ objKeys obj →
    objKeys (objUpsert key v obj) = objKeys obj ++ [key] := by
  intro obj
  induction obj with
  | nil => intro _; simp [objUpsert]
  | cons p rest ih =>
      obtain ⟨k, w⟩ := p
      intro h
      have hk : k ≠ key := fun hk => h (by simp [hk])
      have hmem : key ∉ objKeys rest := fun hm => h (by simp [hm])
      simp [objUpsert, hk, ih hmem]

theorem mem_objKeys_upsert {β : Type} {x key : String} (v : β)
    {obj : Obj β} :
    x ∈ objKeys (objUpsert key v obj) ↔ x ∈ objKeys obj ∨ x = key := by
  induction obj with
  | nil => simp [objUpsert]
  | cons p rest ih =>
      obtain ⟨k, w⟩ := p
      by_cases hk : k = key
      · subst hk
        simp [objUpsert]
        tauto
      · simp [objUpsert, hk] at ih ⊢
        tauto

theorem objUpsert_objUpsert {β : Type} (key : String) (v₁ v₂ : β) :
    ∀ obj : Obj β,
    objUpsert key v₂ (objUpsert key v₁ obj) = objUpsert key v₂ obj := by
  intro obj
  induction obj with
  | nil => simp [objUpsert]
  | cons p rest ih =>
      obtain ⟨k, w⟩ := p
      by_cases hk : k = key
      · simp [objUpsert, hk]
      · simp [objUpsert, hk, ih]

theorem objLookup_mem {β : Type} {key : String} {v : β} :
    ∀ {obj : Obj β}, objLookup key obj = some v → (key, v) ∈ obj := by
  intro obj
  induction obj with
  | nil => intro h; simp [objLookup] at h
  | cons p rest ih =>
      obtain ⟨k, w⟩ := p
      intro h
      by_cases hk : k = key
      · subst hk
        simp [objLookup] at h
        simp [h]
      · simp [objLookup, hk] at h
        exact List.mem_cons_of_mem _ (ih h)

/-! ## Fold lemmas

Both `initialState` and `getAllRef` are folds that upsert one slot per field
name; `upsertFold` abstracts that shape. -/

/-- Common shape of the two `reduce` calls in the hook: upsert `f key` at
`key` for each name of `L`, left to right, starting from `seed`. -/
def upsertFold {β : Type} (f : String → β) (L : List String) (seed : Obj β) :
    Obj β :=
  L.foldl (fun obj key => objUpsert key (f key) obj) seed

theorem initialState_eq_upsertFold (L : List String) :
    initialState L = upsertFold (fun _ => none) L [] := rfl

theorem getAllRef_eq_upsertFold (s : State) (env : Env) :
    getAllRef s env =
      upsertFold (fun key => (currentHandle s key).map env) s.fields
        ((initialState s.fields).map (fun p => (p.1, none))) := rfl

theorem objKeys_upsertFold_nodup {β : Type} (f : String → β) :
    ∀ (L : List String) (seed : Obj β), (objKeys seed ++ L).Nodup →
    objKeys (upsertFold f L seed) = objKeys seed ++ L := by
  intro L
  induction L with
  | nil => intro seed _; simp [upsertFold]
  | cons n rest ih =>
      intro seed h
      have hn : n ∉ objKeys seed := by
        have hd := List.disjoint_of_nodup_append h
        intro hmem
        exact hd hmem (List.mem_cons_self n rest)
      have hkeys : objKeys (objUpsert n (f n) seed) = objKeys seed ++ [n] :=
        objKeys_upsert_not_mem (f n) seed hn
      have hnd : (objKeys (objUpsert n (f n) seed) ++ rest).Nodup := by
        rw [hkeys, List.append_assoc, List.singleton_append]
        exact h
      have := ih (objUpsert n (f n) seed) hnd
      calc objKeys (upsertFold f (n :: rest) seed)
          = objKeys (upsertFold f rest (objUpsert n (f n) seed)) := rfl
        _ = objKeys (objUpsert n (f n) seed) ++ rest := this
        _ = (objKeys seed ++ [n]) ++ rest := by rw [hkeys]
        _ = objKeys seed ++ n :: rest := by
            rw [List.append_assoc, List.singleton_append]

theorem upsertFold_cons_not_mem {β : Type} (f : String → β) (a : String × β) :
    ∀ (L : List String), a.1 ∉ L → ∀ tail : Obj β,
    upsertFold f L (a :: tail) = a :: upsertFold f L tail := by
  intro L
  induction L with
  | nil => intro _ tail; simp [upsertFold]
  | cons k rest ih =>
      intro h tail
      have hk : a.1 ≠ k := fun hak => h (by simp [hak])
      have hrest : a.1 ∉ rest := fun hm => h (List.mem_cons_of_mem _ hm)
      calc upsertFold f (k :: rest) (a :: tail)
          = upsertFold f rest (objUpsert k (f k) (a :: tail)) := rfl
        _ = upsertFold f rest (a :: objUpsert k (f k) tail) := by
            obtain ⟨a1, a2⟩ := a
            simp only [objUpsert]
            rw [if_neg (by simpa using hk)]
        _ = a :: upsertFold f rest (objUpsert k (f k) tail) := ih hrest _
        _ = a :: upsertFold f (k :: rest) tail := rfl

theorem upsertFold_eq_map {β : Type} (f : String → β) :
    ∀ (L : List String) (seed : Obj β), objKeys seed = L → L.Nodup →
    upsertFold f L seed = L.map (fun k => (k, f k)) := by
  intro L
  induction L with
  | nil =>
      intro seed hkeys _
      have : seed = [] := by
        cases seed with
        | nil => rfl
        | cons p rest => simp at hkeys
      simp [this, upsertFold]
  | cons n rest ih =>
      intro seed hkeys hnd
      cases seed with
      | nil => simp at hkeys
      | cons p seedRest =>
          obtain ⟨k0, w⟩ := p
          have hk0 : k0 = n := by simpa using congrArg (fun l => l.head?) hkeys
          have hrest : objKeys seedRest = rest := by
            simpa [hk0] using hkeys
          subst hk0
          have hnotmem : k0 ∉ rest := by
            simpa using (List.nodup_cons.mp hnd).1
          have hndrest : rest.Nodup := (List.nodup_cons.mp hnd).2
          calc upsertFold f (k0 :: rest) ((k0, w) :: seedRest)
              = upsertFold f rest (objUpsert k0 (f k0) ((k0, w) :: seedRest)) :=
                rfl
            _ = upsertFold f rest ((k0, f k0) :: seedRest) := by
                simp [objUpsert]
            _ = (k0, f k0) :: upsertFold f rest seedRest :=
                upsertFold_cons_not_mem f (k0, f k0) rest hnotmem seedRest
            _ = (k0, f k0) :: rest.map (fun k => (k, f k)) := by
                rw [ih seedRest hrest hndrest]
            _ = (k0 :: rest).map (fun k => (k, f k)) := rfl

theorem mem_objKeys_upsertFold {β : Type} (f : String → β) :
    ∀ (L : List String) (seed : Obj β) (x : String),
    x ∈ objKeys (upsertFold f L seed) → x ∈ objKeys seed ∨ x ∈ L := by
  intro L
  induction L with
  | nil => intro seed x h; exact Or.inl h
  | cons k rest ih =>
      intro seed x h
      have := ih (objUpsert k (f k) seed) x h
      rcases this with h1 | h1
      · rcases (mem_objKeys_upsert (f k)).mp h1 with h2 | h2
        · exact Or.inl h2
        · exact Or.inr (by simp [h2])
      · exact Or.inr (List.mem_cons_of_mem _ h1)

theorem objKeys_map_fst {β γ : Type} (g : String × β → γ) (obj : Obj β) :
    objKeys (obj.map (fun p => (p.1, g p))) = objKeys obj := by
  simp [objKeys, List.map_map]

/-! ## State-level lemmas -/

theorem setRef_fields (s : State) (key : String) (ref : Option Handle) :
    (setRef s key ref).fields = s.fields := by
  unfold setRef
  split <;> rfl

theorem objKeys_initialState (L : List String) (hnd : L.Nodup) :
    objKeys (initialState L) = L := by
  rw [initialState_eq_upsertFold]
  simpa using objKeys_upsertFold_nodup (fun _ => none) L [] (by simpa using hnd)

theorem join_objLookup_upsertFold_none :
    ∀ (L : List String) (obj : Obj (Option Handle)),
    (∀ key, (objLookup key obj).join = none) →
    ∀ key, (objLookup key (upsertFold (fun _ => none) L obj)).join = none := by
  intro L
  induction L with
  | nil => intro obj h key; exact h key
  | cons n rest ih =>
      intro obj h key
      refine ih (objUpsert n none obj) ?_ key
      intro key2
      by_cases hn : n = key2
      · subst hn
        rw [objLookup_upsert_self]
        rfl
      · rw [objLookup_upsert_ne hn]
        exact h key2

theorem currentHandle_mkState (L : List String) (key : String) :
    currentHandle (mkState L) key = none := by
  show (objLookup key (initialState L)).join = none
  rw [initialState_eq_upsertFold]
  exact join_objLookup_upsertFold_none L [] (fun _ => rfl) key

theorem reachable_nodup {s : State} (h : Reachable s) : s.fields.Nodup := by
  induction h with
  | init L hnd => exact hnd
  | step s op env h ih =>
      cases op with
      | register key ref => simpa [run, setRef_fields] using ih
      | read key => exact ih
      | readAll => exact ih
      | formData => exact ih

theorem reachable_objKeys {s : State} (h : Reachable s) :
    objKeys s.handles = s.fields := by
  induction h with
  | init L hnd =>
      show objKeys (initialState L) = L
      exact objKeys_initialState L hnd
  | step s op env h ih =>
      cases op with
      | register key ref =>
          show objKeys (setRef s key ref).handles = (setRef s key ref).fields
          unfold setRef
          by_cases hkey : key ∈ s.fields
          · rw [if_pos hkey]
            have hmem : key ∈ objKeys s.handles := by rw [ih]; exact hkey
            show objKeys (objUpsert key ref s.handles) = s.fields
            rw [objKeys_upsert_mem ref s.handles hmem]
            exact ih
          · rw [if_neg hkey]
            exact ih
      | read key => exact ih
      | readAll => exact ih
      | formData => exact ih

theorem getAllRef_reachable {s : State} (h : Reachable s) (env : Env) :
    getAllRef s env =
      s.fields.map (fun n => (n, (currentHandle s n).map env)) := by
  have hnd := reachable_nodup h
  rw [getAllRef_eq_upsertFold]
  refine upsertFold_eq_map _ s.fields _ ?_ hnd
  rw [objKeys_map_fst (fun _ => none) (initialState s.fields)]
  exact objKeys_initialState s.fields hnd

/-! ## Read lemmas -/

theorem currentHandle_setRef_self {s : State} {n : String}
    (h : n ∈ s.fields) (ref : Option Handle) :
    currentHandle (setRef s n ref) n = ref := by
  simp [setRef, h, currentHandle, objLookup_upsert_self]

theorem getRef_of_currentHandle_some {s : State} {n : String} {H : Handle}
    (h : currentHandle s n = some H) (env : Env) :
    getRef s env n = .ok (env H) := by
  simp [getRef, h, assertIsDefined]

theorem getRef_of_currentHandle_none {s : State} {n : String}
    (h : currentHandle s n = none) (env : Env) :
    getRef s env n = .error (.error (unregisteredMsg n)) := by
  simp only [getRef, h, assertIsDefined]
  rfl

theorem mem_objKeys_initialState {key : String} {L : List String}
    (h : key ∈ objKeys (initialState L)) : key ∈ L := by
  rw [initialState_eq_upsertFold] at h
  rcases mem_objKeys_upsertFold _ L [] key h with h1 | h1
  · simp at h1
  · exact h1

/-! ## Claim theorems -/

/-- C1: the specification says `getFormData` raises `UnregisteredFieldError`
identifying the first unregistered field whenever at least one field lacks a
handle.  The code intends exactly that — it applies `assertIsDefined` to
every field — but routes it through `Array.prototype.every`, whose callback
returns the falsy `undefined`, so the check stops after the first field.
With `["name", "desc"]`, `name` registered as element `0` (current text
`"Fire"`) and `desc` unregistered, `getFormData` instead crashes with a
`TypeError` while reading `.value` of the `null` slot for `desc`, naming no
field. -/
theorem getFormData_typeError_when_later_field_unregistered :
    getFormData (setRef (mkState ["name", "desc"]) "name" (some 0))
      (fun _ => "Fire") =
      .error (.typeError "Cannot read properties of null (reading value)") :=
  rfl

/-- C2: for every name `n` in the field list, after the callback returned by
`setRef n` stores a non-null handle `H`, `getRef n` returns the text of the
element `H` as it currently is at the moment `getRef` runs (the read goes
through the stored reference into the environment `env` of the call; nothing
was copied at registration time). -/
theorem getRef_after_setRef (s : State) (n : String) (H : Handle) (env : Env)
    (h : n ∈ s.fields) :
    getRef (setRef s n (some H)) env n = .ok (env H) :=
  getRef_of_currentHandle_some (currentHandle_setRef_self h (some H)) env

theorem getRef_after_setRef_witness :
    getRef (setRef (mkState ["age"]) "age" (some 0)) (fun _ => "minor")
      "age" = .ok "minor" :=
  getRef_after_setRef (mkState ["age"]) "age" 0 (fun _ => "minor") (by decide)

/-- C3: for every name `n` of the field list, whenever no handle is currently
stored at `n`, `getRef n` fails with the `UnregisteredFieldError` (the
`new Error` thrown by `assertIsDefined`), whose message contains `n`; it
does not silently return an empty string. -/
theorem getRef_error_when_unregistered (s : State) (env : Env) (n : String)
    (_hmem : n ∈ s.fields) (h : currentHandle s n = none) :
    getRef s env n = .error (.error (unregisteredMsg n)) ∧
    (∃ pre post : String, unregisteredMsg n = pre ++ n ++ post) ∧
    getRef s env n ≠ .ok "" := by
  have h1 := getRef_of_currentHandle_none h env
  refine ⟨h1, ⟨"La référence ", " n\x27est pas affectée !", rfl⟩, ?_⟩
  rw [h1]
  intro hcontra
  exact Except.noConfusion hcontra

theorem getRef_error_when_unregistered_witness :
    getRef (mkState ["desc"]) (fun _ => "") "desc" =
      .error (.error (unregisteredMsg "desc")) ∧
    (∃ pre post : String, unregisteredMsg "desc" = pre ++ "desc" ++ post) ∧
    getRef (mkState ["desc"]) (fun _ => "") "desc" ≠ .ok "" :=
  getRef_error_when_unregistered (mkState ["desc"]) (fun _ => "") "desc"
    (by decide) (by decide)

/-- C4: for every duplicate-free field list `L`, `getAllRef` run immediately
after construction returns the object whose keys are exactly the names of
`L`, in order, every value `undefined`. -/
theorem getAllRef_after_construction (L : List String) (hnd : L.Nodup)
    (env : Env) :
    getAllRef (mkState L) env = L.map (fun n => (n, (none : Option String))) := by
  have h := getAllRef_reachable (Reachable.init L hnd) env
  rw [h]
  refine List.map_congr_left ?_
  intro n _
  rw [currentHandle_mkState]
  rfl

theorem getAllRef_after_construction_witness :
    getAllRef (mkState ["name", "desc"]) (fun _ => "") =
      [("name", (none : Option String)), ("desc", none)] :=
  getAllRef_after_construction ["name", "desc"] (by decide) (fun _ => "")

/-- C5: in every reachable registry state, `getAllRef` never raises (it is a
total function into plain objects, with no error outcome in its type) and its
result has exactly the key list `fields`, in order, mapping each registered
field to the current text of its element and each unregistered field to
`undefined`. -/
theorem getAllRef_exact_keys_and_values {s : State} (h : Reachable s)
    (env : Env) :
    objKeys (getAllRef s env) = s.fields ∧
    getAllRef s env =
      s.fields.map (fun n => (n, (currentHandle s n).map env)) := by
  have h2 := getAllRef_reachable h env
  refine ⟨?_, h2⟩
  rw [h2]
  simp [objKeys, List.map_map, Function.comp_def]

theorem getAllRef_exact_keys_and_values_witness :
    objKeys (getAllRef (mkState ["name"]) (fun _ => "x")) = ["name"] ∧
    getAllRef (mkState ["name"]) (fun _ => "x") = [("name", none)] :=
  getAllRef_exact_keys_and_values (Reachable.init ["name"] (by decide))
    (fun _ => "x")

/-- C6: invoking the registration callback with any name outside the field
list is a no-op: the state (in particular the `handles` object) is unchanged,
the name does not appear among the keys of a subsequent `getAllRef`, and no
error is raised (`setRef` is a total function). -/
theorem setRef_unknown_name_noop (s : State) (env : Env) (key : String)
    (ref : Option Handle) (h : key ∉ s.fields) :
    setRef s key ref = s ∧
    key ∉ objKeys (getAllRef (setRef s key ref) env) := by
  have h1 : setRef s key ref = s := by simp [setRef, h]
  refine ⟨h1, ?_⟩
  rw [h1, getAllRef_eq_upsertFold]
  intro hmem
  rcases mem_objKeys_upsertFold _ s.fields _ key hmem with h2 | h2
  · rw [objKeys_map_fst (fun _ => none) (initialState s.fields)] at h2
    exact h (mem_objKeys_initialState h2)
  · exact h h2

theorem setRef_unknown_name_noop_witness :
    setRef (mkState ["name"]) "zzz" (some 3) = mkState ["name"] ∧
    "zzz" ∉ objKeys (getAllRef (setRef (mkState ["name"]) "zzz" (some 3))
      (fun _ => "v")) :=
  setRef_unknown_name_noop (mkState ["name"]) (fun _ => "v") "zzz" (some 3)
    (by decide)

/-- C7: in every state reachable from construction with distinct field names
through any sequence of operations (registration callbacks with a handle or
`null`, `getRef`, `getAllRef`, `getFormData`), the key list of the `handles`
object is exactly `fields` — no extra and no missing keys. -/
theorem handles_keys_invariant {s : State} (h : Reachable s) :
    objKeys s.handles = s.fields :=
  reachable_objKeys h

theorem handles_keys_invariant_witness :
    objKeys (mkState ["name", "desc"]).handles = ["name", "desc"] :=
  handles_keys_invariant (Reachable.init ["name", "desc"] (by decide))

/-- C8: for every name `n` in the field list, invoking the registration
callback for `n` with `null` after a prior registration of a present handle
clears the slot, so a subsequent `getRef n` raises the
`UnregisteredFieldError`. -/
theorem getRef_error_after_clear (s : State) (env : Env) (n : String)
    (H : Handle) (h : n ∈ s.fields) :
    getRef (setRef (setRef s n (some H)) n none) env n =
      .error (.error (unregisteredMsg n)) := by
  have hm : n ∈ (setRef s n (some H)).fields := by
    rw [setRef_fields]; exact h
  exact getRef_of_currentHandle_none (currentHandle_setRef_self hm none) env

theorem getRef_error_after_clear_witness :
    getRef (setRef (setRef (mkState ["sel"]) "sel" (some 2)) "sel" none)
      (fun _ => "x") "sel" = .error (.error (unregisteredMsg "sel")) :=
  getRef_error_after_clear (mkState ["sel"]) (fun _ => "x") "sel" 2
    (by decide)

/-- C9: last registration wins: for every name `n` in the field list,
registering `H2` after `H1` leaves the registry in exactly the state reached
by registering `H2` alone — `H1` is gone from the state, hence unobservable
through any accessor — and `getRef n` returns the current text of `H2`. -/
theorem setRef_last_wins (s : State) (env : Env) (n : String)
    (H1 H2 : Handle) (h : n ∈ s.fields) :
    setRef (setRef s n (some H1)) n (some H2) = setRef s n (some H2) ∧
    getRef (setRef (setRef s n (some H1)) n (some H2)) env n =
      .ok (env H2) := by
  have hm : n ∈ (setRef s n (some H1)).fields := by
    rw [setRef_fields]; exact h
  constructor
  · simp [setRef, h, hm, objUpsert_objUpsert]
  · exact getRef_of_currentHandle_some
      (currentHandle_setRef_self hm (some H2)) env

theorem setRef_last_wins_witness :
    setRef (setRef (mkState ["radio"]) "radio" (some 0)) "radio" (some 1) =
      setRef (mkState ["radio"]) "radio" (some 1) ∧
    getRef (setRef (setRef (mkState ["radio"]) "radio" (some 0)) "radio"
      (some 1)) (fun H => if H = 1 then "label2" else "label1") "radio" =
      .ok "label2" :=
  setRef_last_wins (mkState ["radio"])
    (fun H => if H = 1 then "label2" else "label1") "radio" 0 1 (by decide)

/-- C10: the read operations `getRef`, `getAllRef` and `getFormData` leave
the registry state — in particular the `handles` object — exactly as it was,
whether they return a value or raise: only a `register` operation writes to
the state in the step semantics `run`. -/
theorem reads_preserve_state (s : State) (env : Env) (key : String) :
    (run (.read key) env s).fst = s ∧
    (run .readAll env s).fst = s ∧
    (run .formData env s).fst = s :=
  ⟨rfl, rfl, rfl⟩
